import Mathlib

set_option maxRecDepth 8000

/-! # Verification of the timestamp-finder service

A shallow embedding of the pure logic of src/main.py: the timestamp
normalizer `parse_timestamp_to_hhmmss` with its helper
`seconds_to_hhmmss`, the video-identifier extractor `extract_video_id`,
the readiness-poll loop of the /ask handler, and the /ask handler's
control flow with its cleanup, modelled as a function from a world of
external outcomes to a response plus a trace of side effects.

Strings are Lean `String`s and their character lists; the regex class
`\d` is the ASCII digit test `isDig` (the embedding restricts Python's
Unicode digit class to ASCII); Python `int` on a digit string is
`strToNat`; the format `f"{n:02d}"` is `pad2`. -/

/-- ASCII digit test, the embedding of the regex class `\d`. -/
def isDig (c : Char) : Bool := decide (48 ≤ c.toNat) && decide (c.toNat ≤ 57)

/-- Numeric value of a digit character. -/
def dval (c : Char) : Nat := c.toNat - 48

/-- Value of a two-digit group, as Python `int` reads it. -/
def val2 (a b : Char) : Nat := 10 * dval a + dval b

/-- Decimal digit character for a value below ten. -/
def digitChar : Nat → Char
  | 0 => '0'
  | 1 => '1'
  | 2 => '2'
  | 3 => '3'
  | 4 => '4'
  | 5 => '5'
  | 6 => '6'
  | 7 => '7'
  | 8 => '8'
  | _ => '9'

/-- Fuel-indexed decimal rendering, most significant digit first; the fuel
only bounds the recursion depth and `natDigitsAux_irrel` shows any fuel at
least the argument gives the same digits. -/
def natDigitsAux : Nat → Nat → List Char
  | 0, _ => []
  | _ + 1, 0 => []
  | fuel + 1, n + 1 => natDigitsAux fuel ((n + 1) / 10) ++ [digitChar ((n + 1) % 10)]

/-- Decimal digits of a natural number (empty for 0). -/
def natDigits (n : Nat) : List Char := natDigitsAux n n

/-- Decimal rendering, the embedding of Python `str` on a non-negative int. -/
def natToString (n : Nat) : String := if n = 0 then "0" else String.mk (natDigits n)

/-- The format `f"{n:02d}"`: decimal rendering zero-padded to width two. -/
def pad2 (n : Nat) : String :=
  if n < 10 then String.mk ('0' :: (natToString n).data) else natToString n

/-- Python `int` on a digit string. -/
def strToNat (l : List Char) : Nat := l.foldl (fun a c => 10 * a + dval c) 0

/-- `seconds_to_hhmmss` of src/main.py. -/
def seconds_to_hhmmss (n : Nat) : String :=
  pad2 (n / 3600) ++ ":" ++ pad2 (n % 3600 / 60) ++ ":" ++ pad2 (n % 60)

/-- ASCII whitespace stripped by Python `str.strip`. -/
def pySpace (c : Char) : Bool :=
  c == ' ' || c == '\t' || c == '\n' || c == '\r' ||
    decide (c.toNat = 11) || decide (c.toNat = 12)

/-- `str.strip()`: drop whitespace at both ends. -/
def pyStrip (l : List Char) : List Char :=
  ((l.dropWhile pySpace).reverse.dropWhile pySpace).reverse

/-- Anchored match of `^\d{2}:\d{2}:\d{2}$`. -/
def matchExactHHMMSS : List Char → Bool
  | [a, b, c, d, e, f, g, k] =>
    isDig a && isDig b && (c == ':') && isDig d && isDig e && (f == ':') &&
      isDig g && isDig k
  | _ => false

/-- Anchored match of `^\d{1,2}:\d{2}$`; on a match the code splits on the
colon and applies `int` to both parts, so the match returns those values. -/
def matchExactMSS : List Char → Option (Nat × Nat)
  | [a, c, d, e] =>
    if isDig a && (c == ':') && isDig d && isDig e then
      some (dval a, val2 d e)
    else none
  | [a, b, c, d, e] =>
    if isDig a && isDig b && (c == ':') && isDig d && isDig e then
      some (val2 a b, val2 d e)
    else none
  | _ => none

/-- Anchored match of `^\d+$`. -/
def isAllDigits (l : List Char) : Bool := !l.isEmpty && l.all isDig

/-- Match of `:(\d{2}):(\d{2})` at the head of the list. -/
def tailMMSS : List Char → Option (Nat × Nat)
  | c :: m1 :: m2 :: d :: s1 :: s2 :: _ =>
    if (c == ':') && isDig m1 && isDig m2 && (d == ':') && isDig s1 && isDig s2 then
      some (val2 m1 m2, val2 s1 s2)
    else none
  | _ => none

/-- Match of `(\d{1,2}):(\d{2}):(\d{2})` anchored at the head: the hour
group is greedy, two digits tried before one, as the regex engine does. -/
def matchHMSAt : List Char → Option (Nat × Nat × Nat)
  | a :: b :: rest =>
    if isDig a then
      if isDig b then
        match tailMMSS rest with
        | some (m, s) => some (val2 a b, m, s)
        | none =>
          match tailMMSS (b :: rest) with
          | some (m, s) => some (dval a, m, s)
          | none => none
      else
        match tailMMSS (b :: rest) with
        | some (m, s) => some (dval a, m, s)
        | none => none
    else none
  | _ => none

/-- `re.search` of `(\d{1,2}):(\d{2}):(\d{2})`: leftmost position wins. -/
def searchHMS : List Char → Option (Nat × Nat × Nat)
  | [] => none
  | c :: rest =>
    match matchHMSAt (c :: rest) with
    | some r => some r
    | none => searchHMS rest

/-- Match of `:(\d{2})` at the head of the list. -/
def tailSS : List Char → Option Nat
  | c :: s1 :: s2 :: _ =>
    if (c == ':') && isDig s1 && isDig s2 then some (val2 s1 s2) else none
  | _ => none

/-- Match of `(\d{1,2}):(\d{2})` anchored at the head, greedy minutes. -/
def matchMSAt : List Char → Option (Nat × Nat)
  | a :: b :: rest =>
    if isDig a then
      if isDig b then
        match tailSS rest with
        | some s => some (val2 a b, s)
        | none =>
          match tailSS (b :: rest) with
          | some s => some (dval a, s)
          | none => none
      else
        match tailSS (b :: rest) with
        | some s => some (dval a, s)
        | none => none
    else none
  | _ => none

/-- `re.search` of `(\d{1,2}):(\d{2})`: leftmost position wins. -/
def searchMS : List Char → Option (Nat × Nat)
  | [] => none
  | c :: rest =>
    match matchMSAt (c :: rest) with
    | some r => some r
    | none => searchMS rest

/-- `parse_timestamp_to_hhmmss` of src/main.py: strip, then the ordered
rules — exact HH:MM:SS, exact M?M:SS, all digits as a seconds count,
embedded H:MM:SS, embedded M:SS, default. -/
def parse_timestamp_to_hhmmss (ts : String) : String :=
  let l := pyStrip ts.data
  if matchExactHHMMSS l then String.mk l
  else
    match matchExactMSS l with
    | some (m, s) => "00:" ++ pad2 m ++ ":" ++ pad2 s
    | none =>
      if isAllDigits l then seconds_to_hhmmss (strToNat l)
      else
        match searchHMS l with
        | some (x, m, s) => pad2 x ++ ":" ++ pad2 m ++ ":" ++ pad2 s
        | none =>
          match searchMS l with
          | some (m, s) => "00:" ++ pad2 m ++ ":" ++ pad2 s
          | none => "00:00:00"

/-- Split a character list at colons, keeping the fields. -/
def splitColsAux (acc : List Char) : List Char → List String
  | [] => [String.mk acc]
  | c :: rest =>
    if c = ':' then String.mk acc :: splitColsAux [] rest
    else splitColsAux (acc ++ [c]) rest

/-- The colon-separated fields of a character list. -/
def splitCols (l : List Char) : List String := splitColsAux [] l

/-- Match a literal character sequence at the head of the input, returning
the remainder on success. -/
def matchLit : List Char → List Char → Option (List Char)
  | [], l => some l
  | _ :: _, [] => none
  | p :: ps, c :: cs => if p = c then matchLit ps cs else none

/-- The regex class `[a-zA-Z0-9_-]`. -/
def idChar (c : Char) : Bool :=
  (decide (65 ≤ c.toNat) && decide (c.toNat ≤ 90)) ||
    (decide (97 ≤ c.toNat) && decide (c.toNat ≤ 122)) ||
    (decide (48 ≤ c.toNat) && decide (c.toNat ≤ 57)) ||
    c == '_' || c == '-'

/-- Take `([a-zA-Z0-9_-]{11})` at the head of the list. -/
def grabId (l : List Char) : Option String :=
  if (l.take 11).length = 11 && (l.take 11).all idChar then
    some (String.mk (l.take 11))
  else none

/-- Match of `(?:v=|youtu\.be/|embed/)([a-zA-Z0-9_-]{11})` anchored at the
head: the alternatives in the regex's order (their first characters differ,
so at most one can apply at a position). -/
def matchIdAt (l : List Char) : Option String :=
  match matchLit ("v=").data l with
  | some r => grabId r
  | none =>
    match matchLit ("youtu.be/").data l with
    | some r => grabId r
    | none =>
      match matchLit ("embed/").data l with
      | some r => grabId r
      | none => none

/-- `re.search` of the video-id pattern: leftmost position wins. -/
def searchId : List Char → Option String
  | [] => none
  | c :: rest =>
    match matchIdAt (c :: rest) with
    | some s => some s
    | none => searchId rest

/-- `extract_video_id` of src/main.py: `None` becomes `none`. -/
def extract_video_id (url : String) : Option String := searchId url.data

/-- One step budget of the readiness poll; `pollLoopAux_irrel` shows 41
steps of budget always suffice, so `pollLoop` is exactly the while loop. -/
def pollLoopAux : Nat → (Nat → String) → Nat → Nat → Nat × Nat
  | 0, _, i, waited => (i, waited)
  | fuel + 1, fetch, i, waited =>
    if fetch i ≠ "ACTIVE" ∧ waited < 120 then
      pollLoopAux fuel fetch (i + 1) (waited + 3)
    else (i, waited)

/-- The readiness poll of the /ask handler: `fetch k` is `state.name` after
`k` re-fetches (`fetch 0` comes from the upload response); the loop's body
sleeps 3 seconds, adds 3 to `waited` and re-fetches, and the result is the
final fetch index and the cumulative wait. -/
def pollLoop (fetch : Nat → String) (i waited : Nat) : Nat × Nat :=
  pollLoopAux 41 fetch i waited

/-- Observable external actions of one /ask request. -/
inductive Effect where
  | runDownloader (url : String)
  | uploadFile (path : String)
  | generateContent
  | removeFile (path : String)
  | deleteRemote (name : String)
deriving DecidableEq, Repr

/-- The primary outcome of one /ask request: the JSON response or the
HTTPException's status code and detail string. -/
inductive Outcome where
  | ok (timestamp : String) (videoUrl : String) (topic : String)
  | httpError (status : Nat) (detail : String)
deriving DecidableEq, Repr

/-- Outcomes of the external collaborators during one request, fixed up
front: `dlRaises` models `subprocess.run` itself raising (e.g. timeout),
`returncode`/`stderrTxt` its completed result, `fExists` the file system,
`listing` `os.listdir` of the temp directory, `upload` the Files-API upload
(exception message or handle name), `states` the handle state after each
re-fetch, `generate` the model call (exception message or the raw timestamp
string of its JSON), and the two flags whether each cleanup action raises. -/
structure World where
  dlRaises : Option String
  returncode : Int
  stderrTxt : String
  fExists : String → Bool
  listing : List String
  upload : Except String String
  states : Nat → String
  generate : Except String String
  removeRaises : Bool
  deleteRaises : Bool

/-- The temp directory `tempfile.mkdtemp()` returns, as a fixed path. -/
def tmpDir : String := "/tmp/req"

/-- The initial audio path `os.path.join(tmp_dir, "audio.mp3")`. -/
def origAudio : String := tmpDir ++ "/audio.mp3"

/-- The audio path after the extension-drift scan: the original if it
exists, else the first listed file whose name starts with "audio". -/
def finalAudio (w : World) : String :=
  if w.fExists origAudio then origAudio
  else
    match w.listing.find? (fun f => String.startsWith f ("audio")) with
    | some f => tmpDir ++ "/" ++ f
    | none => origAudio

/-- What the try-block of the /ask handler leaves behind: the primary
outcome, the final value of `tmp_audio`, the value of `uploaded_file`
(the remote handle's name, when allocated), and the external calls made. -/
structure MainResult where
  primary : Outcome
  tmpAudio : String
  uploaded : Option String
  effects : List Effect

/-- The try-block of the /ask handler of src/main.py: download, locate the
file, upload, poll, query; `except HTTPException: raise` keeps HTTP errors
and `except Exception as e` wraps anything else as a 500 with `str(e)`. -/
def askMain (w : World) (url topic : String) : MainResult :=
  match w.dlRaises with
  | some msg => ⟨Outcome.httpError 500 msg, origAudio, none, [Effect.runDownloader url]⟩
  | none =>
    if w.returncode ≠ 0 then
      ⟨Outcome.httpError 400 ("yt-dlp error: " ++ w.stderrTxt), origAudio, none,
        [Effect.runDownloader url]⟩
    else if w.fExists (finalAudio w) = false then
      ⟨Outcome.httpError 500 "Audio file not created", finalAudio w, none,
        [Effect.runDownloader url]⟩
    else
      match w.upload with
      | Except.error msg =>
        ⟨Outcome.httpError 500 msg, finalAudio w, none,
          [Effect.runDownloader url, Effect.uploadFile (finalAudio w)]⟩
      | Except.ok name =>
        if w.states (pollLoop w.states 0 0).1 ≠ "ACTIVE" then
          ⟨Outcome.httpError 500 "File processing timed out", finalAudio w, some name,
            [Effect.runDownloader url, Effect.uploadFile (finalAudio w)]⟩
        else
          match w.generate with
          | Except.error msg =>
            ⟨Outcome.httpError 500 msg, finalAudio w, some name,
              [Effect.runDownloader url, Effect.uploadFile (finalAudio w),
                Effect.generateContent]⟩
          | Except.ok raw =>
            ⟨Outcome.ok (parse_timestamp_to_hhmmss raw) url topic, finalAudio w,
              some name,
              [Effect.runDownloader url, Effect.uploadFile (finalAudio w),
                Effect.generateContent]⟩

/-- The finally-block: remove the local file if it exists, then request
deletion of the remote handle if one was allocated; each action sits in its
own `try/except: pass`, so an attempt is recorded whether or not the world
makes it raise, and nothing here touches the outcome. -/
def cleanupEffects (m : MainResult) (w : World) : List Effect :=
  (if w.fExists m.tmpAudio then [Effect.removeFile m.tmpAudio] else []) ++
    (match m.uploaded with
     | some n => [Effect.deleteRemote n]
     | none => [])

/-- The whole /ask handler: primary outcome and the trace of externally
visible actions, the finally-block's appended to the try-block's. -/
def ask (w : World) (url topic : String) : Outcome × List Effect :=
  let m := askMain w url topic
  (m.primary, m.effects ++ cleanupEffects m w)

/-- The same world with the cleanup-failure flags replaced: the two flags
are the only inputs `ask` is allowed to ignore. -/
def setFlags (w : World) (b1 b2 : Bool) : World :=
  ⟨w.dlRaises, w.returncode, w.stderrTxt, w.fExists, w.listing, w.upload,
    w.states, w.generate, b1, b2⟩

/-- Rule `i` of the spec's ordered normalization algorithm, read from the
spec's words, applied to the stripped input: `none` when the rule does not
match, `some` output when it does (rule 6 always matches). -/
def specRuleOut : Nat → List Char → Option String
  | 1, l => if matchExactHHMMSS l then some (String.mk l) else none
  | 2, l => Option.map (fun p => "00:" ++ pad2 p.1 ++ ":" ++ pad2 p.2) (matchExactMSS l)
  | 3, l => if isAllDigits l then some (seconds_to_hhmmss (strToNat l)) else none
  | 4, l => Option.map (fun t => pad2 t.1 ++ ":" ++ pad2 t.2.1 ++ ":" ++ pad2 t.2.2) (searchHMS l)
  | 5, l => Option.map (fun p => "00:" ++ pad2 p.1 ++ ":" ++ pad2 p.2) (searchMS l)
  | 6, _ => some "00:00:00"
  | _, _ => none

/-! ## Basic facts about digits and decimal rendering -/

theorem isDig_iff {c : Char} : isDig c = true ↔ 48 ≤ c.toNat ∧ c.toNat ≤ 57 := by
  simp [isDig]

theorem dval_le {c : Char} (h : isDig c = true) : dval c ≤ 9 := by
  rcases isDig_iff.mp h with ⟨h1, h2⟩
  unfold dval
  omega

theorem val2_le {a b : Char} (ha : isDig a = true) (hb : isDig b = true) :
    val2 a b ≤ 99 := by
  have h1 := dval_le ha
  have h2 := dval_le hb
  unfold val2
  omega

theorem isDig_digitChar (r : Nat) : isDig (digitChar r) = true := by
  rcases r with _ | _ | _ | _ | _ | _ | _ | _ | _ | r <;> rfl

theorem dval_digitChar {r : Nat} (h : r < 10) : dval (digitChar r) = r := by
  interval_cases r <;> decide

theorem isDig_ne_colon {c : Char} (h : isDig c = true) : c ≠ ':' := by
  intro heq
  subst heq
  exact absurd h (by decide)

theorem isDig_pySpace {c : Char} (h : isDig c = true) : pySpace c = false := by
  rcases isDig_iff.mp h with ⟨h1, h2⟩
  refine Bool.eq_false_iff.mpr ?_
  intro htrue
  simp [pySpace] at htrue
  rcases htrue with ((((h' | h') | h') | h') | h') | h'
  · subst h'; have : Char.toNat ' ' = 32 := rfl; omega
  · subst h'; have : Char.toNat '\t' = 9 := rfl; omega
  · subst h'; have : Char.toNat '\n' = 10 := rfl; omega
  · subst h'; have : Char.toNat '\r' = 13 := rfl; omega
  · omega
  · omega

theorem natDigitsAux_irrel :
    ∀ n f1 f2, n ≤ f1 → n ≤ f2 → natDigitsAux f1 n = natDigitsAux f2 n := by
  intro n
  induction n using Nat.strong_induction_on with
  | _ n ih =>
    intro f1 f2 h1 h2
    match n, f1, f2 with
    | 0, 0, 0 => rfl
    | 0, 0, _ + 1 => rfl
    | 0, _ + 1, 0 => rfl
    | 0, _ + 1, _ + 1 => rfl
    | m + 1, g1 + 1, g2 + 1 =>
      show natDigitsAux g1 ((m + 1) / 10) ++ _ = natDigitsAux g2 ((m + 1) / 10) ++ _
      have hd : (m + 1) / 10 < m + 1 := Nat.div_lt_self (Nat.succ_pos m) (by omega)
      rw [ih ((m + 1) / 10) hd g1 g2 (by omega) (by omega)]

theorem natDigits_zero : natDigits 0 = [] := rfl

theorem natDigits_succ {n : Nat} (h : n ≠ 0) :
    natDigits n = natDigits (n / 10) ++ [digitChar (n % 10)] := by
  match n, h with
  | m + 1, _ =>
    show natDigitsAux m ((m + 1) / 10) ++ _ = _
    have hd : (m + 1) / 10 < m + 1 := Nat.div_lt_self (Nat.succ_pos m) (by omega)
    rw [natDigitsAux_irrel ((m + 1) / 10) m ((m + 1) / 10) (by omega) (le_refl _)]
    rfl

theorem natDigits_all_dig : ∀ n, ∀ c ∈ natDigits n, isDig c = true := by
  intro n
  induction n using Nat.strong_induction_on with
  | _ n ih =>
    intro c hc
    rcases Nat.eq_zero_or_pos n with h0 | hpos
    · subst h0; cases hc
    · rw [natDigits_succ (by omega)] at hc
      rcases List.mem_append.mp hc with hm | hm
      · exact ih (n / 10) (Nat.div_lt_self hpos (by omega)) c hm
      · rcases List.mem_singleton.mp hm with rfl
        exact isDig_digitChar _

theorem natDigits_length_succ {n : Nat} (h : n ≠ 0) :
    (natDigits n).length = (natDigits (n / 10)).length + 1 := by
  rw [natDigits_succ h, List.length_append, List.length_singleton]

theorem natDigits_length_pos {n : Nat} (h : n ≠ 0) : 1 ≤ (natDigits n).length := by
  rw [natDigits_length_succ h]
  omega

theorem natDigits_length_one {n : Nat} (h1 : n ≠ 0) (h2 : n < 10) :
    (natDigits n).length = 1 := by
  rw [natDigits_length_succ h1, Nat.div_eq_of_lt h2, natDigits_zero]
  rfl

theorem natDigits_length_le_two {n : Nat} (h : n < 100) :
    (natDigits n).length ≤ 2 := by
  rcases Nat.eq_zero_or_pos n with h0 | hpos
  · subst h0; simp [natDigits_zero]
  · rw [natDigits_length_succ (by omega)]
    rcases Nat.eq_zero_or_pos (n / 10) with hq | hqpos
    · rw [hq, natDigits_zero]; simp
    · have : n / 10 < 10 := by omega
      rw [natDigits_length_one (by omega) this]

theorem natDigits_length_ge_three {n : Nat} (h : 100 ≤ n) :
    3 ≤ (natDigits n).length := by
  have h10 : 10 ≤ n / 10 := by omega
  have h1 : 1 ≤ n / 10 / 10 := by omega
  rw [natDigits_length_succ (by omega), natDigits_length_succ (by omega)]
  have := natDigits_length_pos (n := n / 10 / 10) (by omega)
  omega

theorem strToNat_append_digit (l : List Char) (c : Char) :
    strToNat (l ++ [c]) = 10 * strToNat l + dval c := by
  unfold strToNat
  rw [List.foldl_append]
  rfl

theorem strToNat_natDigits : ∀ n, strToNat (natDigits n) = n := by
  intro n
  induction n using Nat.strong_induction_on with
  | _ n ih =>
    rcases Nat.eq_zero_or_pos n with h0 | hpos
    · subst h0; rfl
    · rw [natDigits_succ (by omega), strToNat_append_digit,
        ih (n / 10) (Nat.div_lt_self hpos (by omega)),
        dval_digitChar (Nat.mod_lt n (by omega))]
      omega

theorem natToString_data_zero : (natToString 0).data = ['0'] := rfl

theorem natToString_data_pos {n : Nat} (h : n ≠ 0) :
    (natToString n).data = natDigits n := by
  unfold natToString
  rw [if_neg h]

theorem natToString_all_dig : ∀ n, ∀ c ∈ (natToString n).data, isDig c = true := by
  intro n c hc
  rcases Nat.eq_zero_or_pos n with h0 | hpos
  · subst h0
    rw [natToString_data_zero] at hc
    rcases List.mem_singleton.mp hc with rfl
    decide
  · rw [natToString_data_pos (by omega)] at hc
    exact natDigits_all_dig n c hc

theorem natToString_ne_nil (n : Nat) : (natToString n).data ≠ [] := by
  rcases Nat.eq_zero_or_pos n with h0 | hpos
  · subst h0; rw [natToString_data_zero]; simp
  · rw [natToString_data_pos (by omega)]
    have := natDigits_length_pos (n := n) (by omega)
    intro he
    rw [he] at this
    simp at this

theorem strToNat_cons_zero (l : List Char) : strToNat ('0' :: l) = strToNat l := rfl

theorem strToNat_natToString (n : Nat) : strToNat (natToString n).data = n := by
  rcases Nat.eq_zero_or_pos n with h0 | hpos
  · subst h0; rfl
  · rw [natToString_data_pos (by omega), strToNat_natDigits]

theorem pad2_all_dig (n : Nat) : ∀ c ∈ (pad2 n).data, isDig c = true := by
  intro c hc
  unfold pad2 at hc
  by_cases h : n < 10
  · rw [if_pos h] at hc
    rw [List.mem_cons] at hc
    rcases hc with rfl | hc
    · decide
    · exact natToString_all_dig n c hc
  · rw [if_neg h] at hc
    exact natToString_all_dig n c hc

theorem pad2_no_colon {n : Nat} : ∀ c ∈ (pad2 n).data, c ≠ ':' :=
  fun c hc => isDig_ne_colon (pad2_all_dig n c hc)

theorem pad2_length_ge_two (n : Nat) : 2 ≤ (pad2 n).length := by
  unfold pad2
  by_cases h : n < 10
  · rw [if_pos h]
    show 2 ≤ ('0' :: (natToString n).data).length
    have := natToString_ne_nil n
    cases hl : (natToString n).data with
    | nil => exact absurd hl this
    | cons a t => simp
  · rw [if_neg h]
    show 2 ≤ (natToString n).data.length
    rw [natToString_data_pos (by omega)]
    have h10 : 1 ≤ n / 10 := by omega
    rw [natDigits_length_succ (by omega)]
    have := natDigits_length_pos (n := n / 10) (by omega)
    omega

theorem pad2_length_eq_two {n : Nat} (h : n < 100) : (pad2 n).length = 2 := by
  refine le_antisymm ?_ (pad2_length_ge_two n)
  unfold pad2
  by_cases h10 : n < 10
  · rw [if_pos h10]
    show ('0' :: (natToString n).data).length ≤ 2
    rcases Nat.eq_zero_or_pos n with h0 | hpos
    · subst h0; rw [natToString_data_zero]; simp
    · rw [natToString_data_pos (by omega)]
      have := natDigits_length_one (n := n) (by omega) h10
      simp [this]
  · rw [if_neg h10]
    show (natToString n).data.length ≤ 2
    rw [natToString_data_pos (by omega)]
    exact natDigits_length_le_two h

theorem pad2_length_overflow {n : Nat} (h : 2 < (pad2 n).length) : 100 ≤ n := by
  by_contra hlt
  rw [pad2_length_eq_two (by omega)] at h
  omega

theorem pad2_length_ge_three {n : Nat} (h : 100 ≤ n) : 2 < (pad2 n).length := by
  unfold pad2
  rw [if_neg (by omega)]
  show 2 < (natToString n).data.length
  rw [natToString_data_pos (by omega)]
  have := natDigits_length_ge_three h
  omega

theorem strToNat_pad2 (n : Nat) : strToNat (pad2 n).data = n := by
  unfold pad2
  by_cases h : n < 10
  · rw [if_pos h]
    show strToNat ('0' :: (natToString n).data) = n
    rw [strToNat_cons_zero, strToNat_natToString]
  · rw [if_neg h]
    exact strToNat_natToString n

/-! ## str.strip facts -/

theorem dropWhile_eq_self {p : Char → Bool} {l : List Char}
    (h : ∀ c ∈ l, p c = false) : l.dropWhile p = l := by
  cases l with
  | nil => rfl
  | cons a t =>
    rw [List.dropWhile_cons, h a (List.mem_cons_self a t)]
    simp

theorem pyStrip_mem {l : List Char} {c : Char} (h : c ∈ pyStrip l) : c ∈ l := by
  unfold pyStrip at h
  rw [List.mem_reverse] at h
  have h1 := (List.dropWhile_sublist (l := (l.dropWhile pySpace).reverse)
    (p := pySpace)).subset h
  rw [List.mem_reverse] at h1
  exact (List.dropWhile_sublist (l := l) (p := pySpace)).subset h1

theorem pyStrip_eq_self {l : List Char} (h : ∀ c ∈ l, pySpace c = false) :
    pyStrip l = l := by
  unfold pyStrip
  rw [dropWhile_eq_self h]
  rw [dropWhile_eq_self (fun c hc => h c (List.mem_reverse.mp hc))]
  exact List.reverse_reverse l

theorem pyStrip_of_digits {l : List Char} (h : ∀ c ∈ l, isDig c = true) :
    pyStrip l = l :=
  pyStrip_eq_self (fun c hc => isDig_pySpace (h c hc))

/-! ## splitCols facts -/

theorem splitColsAux_no_colon :
    ∀ (l : List Char), (∀ c ∈ l, c ≠ ':') → ∀ acc,
      splitColsAux acc l = [String.mk (acc ++ l)] := by
  intro l
  induction l with
  | nil => intro _ acc; simp [splitColsAux]
  | cons a t ih =>
    intro h acc
    unfold splitColsAux
    rw [if_neg (h a (List.mem_cons_self a t))]
    rw [ih (fun c hc => h c (List.mem_cons_of_mem a hc)) (acc ++ [a])]
    simp

theorem splitColsAux_split :
    ∀ (l1 : List Char) (rest : List Char), (∀ c ∈ l1, c ≠ ':') → ∀ acc,
      splitColsAux acc (l1 ++ ':' :: rest) =
        String.mk (acc ++ l1) :: splitColsAux [] rest := by
  intro l1
  induction l1 with
  | nil =>
    intro rest _ acc
    show splitColsAux acc (':' :: rest) = _
    conv_lhs => rw [splitColsAux]
    simp
  | cons a t ih =>
    intro rest h acc
    show splitColsAux acc (a :: (t ++ ':' :: rest)) = _
    conv_lhs => rw [splitColsAux]
    rw [if_neg (h a (List.mem_cons_self a t))]
    rw [ih rest (fun c hc => h c (List.mem_cons_of_mem a hc)) (acc ++ [a])]
    simp

theorem splitCols_three {a b c : List Char}
    (ha : ∀ x ∈ a, x ≠ ':') (hb : ∀ x ∈ b, x ≠ ':') (hc : ∀ x ∈ c, x ≠ ':') :
    splitCols (a ++ ':' :: (b ++ ':' :: c)) =
      [String.mk a, String.mk b, String.mk c] := by
  unfold splitCols
  rw [splitColsAux_split a (b ++ ':' :: c) ha []]
  rw [splitColsAux_split b c hb []]
  rw [splitColsAux_no_colon c hc []]
  simp

theorem string_data_append (s t : String) : (s ++ t).data = s.data ++ t.data := rfl

theorem fmt_data (x y z : String) :
    (x ++ ":" ++ y ++ ":" ++ z).data = x.data ++ ':' :: (y.data ++ ':' :: z.data) := by
  rw [string_data_append, string_data_append, string_data_append, string_data_append]
  simp

theorem fmt00_data (y z : String) :
    ("00:" ++ y ++ ":" ++ z).data = ['0', '0'] ++ ':' :: (y.data ++ ':' :: z.data) := by
  rw [string_data_append, string_data_append, string_data_append]
  simp

/-! ## Elimination facts for the regex matchers -/

theorem matchExactHHMMSS_elim {l : List Char} (h : matchExactHHMMSS l = true) :
    ∃ a b d e g k, l = [a, b, ':', d, e, ':', g, k] ∧ isDig a = true ∧
      isDig b = true ∧ isDig d = true ∧ isDig e = true ∧ isDig g = true ∧
      isDig k = true := by
  unfold matchExactHHMMSS at h
  split at h
  · rename_i a b c d e f g k
    simp only [Bool.and_eq_true, beq_iff_eq] at h
    obtain ⟨⟨⟨⟨⟨⟨⟨ha, hb⟩, hc⟩, hd⟩, he⟩, hf⟩, hg⟩, hk⟩ := h
    subst hc
    subst hf
    exact ⟨a, b, d, e, g, k, rfl, ha, hb, hd, he, hg, hk⟩
  · exact absurd h (by simp)

theorem matchExactHHMMSS_colon {l : List Char} (h : matchExactHHMMSS l = true) :
    ':' ∈ l := by
  obtain ⟨a, b, d, e, g, k, rfl, _⟩ := matchExactHHMMSS_elim h
  simp

theorem matchExactMSS_elim {l : List Char} {m s : Nat}
    (h : matchExactMSS l = some (m, s)) :
    (∃ a d e, l = [a, ':', d, e] ∧ isDig a = true ∧ isDig d = true ∧
      isDig e = true ∧ m = dval a ∧ s = val2 d e) ∨
    (∃ a b d e, l = [a, b, ':', d, e] ∧ isDig a = true ∧ isDig b = true ∧
      isDig d = true ∧ isDig e = true ∧ m = val2 a b ∧ s = val2 d e) := by
  unfold matchExactMSS at h
  split at h
  · rename_i a c d e
    split at h
    · rename_i hcond
      simp only [Bool.and_eq_true, beq_iff_eq] at hcond
      obtain ⟨⟨⟨ha, hc⟩, hd⟩, he⟩ := hcond
      subst hc
      simp only [Option.some.injEq, Prod.mk.injEq] at h
      exact Or.inl ⟨a, d, e, rfl, ha, hd, he, h.1.symm, h.2.symm⟩
    · exact absurd h (by simp)
  · rename_i a b c d e
    split at h
    · rename_i hcond
      simp only [Bool.and_eq_true, beq_iff_eq] at hcond
      obtain ⟨⟨⟨⟨ha, hb⟩, hc⟩, hd⟩, he⟩ := hcond
      subst hc
      simp only [Option.some.injEq, Prod.mk.injEq] at h
      exact Or.inr ⟨a, b, d, e, rfl, ha, hb, hd, he, h.1.symm, h.2.symm⟩
    · exact absurd h (by simp)
  · exact absurd h (by simp)

theorem matchExactMSS_colon {l : List Char} {p : Nat × Nat}
    (h : matchExactMSS l = some p) : ':' ∈ l := by
  obtain ⟨m, s⟩ := p
  rcases matchExactMSS_elim h with ⟨a, d, e, rfl, _⟩ | ⟨a, b, d, e, rfl, _⟩ <;> simp

theorem matchExactMSS_bounds {l : List Char} {m s : Nat}
    (h : matchExactMSS l = some (m, s)) : m ≤ 99 ∧ s ≤ 99 := by
  rcases matchExactMSS_elim h with
    ⟨a, d, e, _, ha, hd, he, hm, hs⟩ | ⟨a, b, d, e, _, ha, hb, hd, he, hm, hs⟩
  · subst hm; subst hs
    exact ⟨le_trans (dval_le ha) (by omega), val2_le hd he⟩
  · subst hm; subst hs
    exact ⟨val2_le ha hb, val2_le hd he⟩

theorem isAllDigits_iff {l : List Char} :
    isAllDigits l = true ↔ l ≠ [] ∧ ∀ c ∈ l, isDig c = true := by
  unfold isAllDigits
  cases l with
  | nil => simp
  | cons a t => simp [List.all_eq_true]

theorem tailMMSS_bounds {l : List Char} {m s : Nat}
    (h : tailMMSS l = some (m, s)) : m ≤ 99 ∧ s ≤ 99 := by
  unfold tailMMSS at h
  split at h
  · rename_i c m1 m2 d s1 s2 rest
    split at h
    · rename_i hcond
      simp only [Bool.and_eq_true, beq_iff_eq] at hcond
      obtain ⟨⟨⟨⟨⟨hc, hm1⟩, hm2⟩, hd⟩, hs1⟩, hs2⟩ := hcond
      simp only [Option.some.injEq, Prod.mk.injEq] at h
      obtain ⟨hm, hs⟩ := h
      subst hm
      subst hs
      exact ⟨val2_le hm1 hm2, val2_le hs1 hs2⟩
    · exact absurd h (by simp)
  · exact absurd h (by simp)

theorem matchHMSAt_bounds {l : List Char} {x m s : Nat}
    (h : matchHMSAt l = some (x, m, s)) : x ≤ 99 ∧ m ≤ 99 ∧ s ≤ 99 := by
  unfold matchHMSAt at h
  split at h
  · rename_i a b rest
    split at h
    · rename_i ha
      split at h
      · rename_i hb
        split at h
        · rename_i m1 s1 ht
          simp only [Option.some.injEq, Prod.mk.injEq] at h
          obtain ⟨rfl, rfl, rfl⟩ := h
          exact ⟨val2_le ha hb, tailMMSS_bounds ht⟩
        · split at h
          · rename_i m1 s1 ht
            simp only [Option.some.injEq, Prod.mk.injEq] at h
            obtain ⟨rfl, rfl, rfl⟩ := h
            exact ⟨le_trans (dval_le ha) (by omega), tailMMSS_bounds ht⟩
          · exact absurd h (by simp)
      · split at h
        · rename_i m1 s1 ht
          simp only [Option.some.injEq, Prod.mk.injEq] at h
          obtain ⟨rfl, rfl, rfl⟩ := h
          exact ⟨le_trans (dval_le ha) (by omega), tailMMSS_bounds ht⟩
        · exact absurd h (by simp)
    · exact absurd h (by simp)
  · exact absurd h (by simp)

theorem searchHMS_bounds :
    ∀ {l : List Char} {x m s : Nat}, searchHMS l = some (x, m, s) →
      x ≤ 99 ∧ m ≤ 99 ∧ s ≤ 99 := by
  intro l
  induction l with
  | nil => intro x m s h; exact absurd h (by simp [searchHMS])
  | cons a t ih =>
    intro x m s h
    unfold searchHMS at h
    split at h
    · rename_i r hr
      simp only [Option.some.injEq] at h
      subst h
      exact matchHMSAt_bounds hr
    · exact ih h

theorem tailSS_bounds {l : List Char} {s : Nat} (h : tailSS l = some s) :
    s ≤ 99 := by
  unfold tailSS at h
  split at h
  · rename_i c s1 s2 rest
    split at h
    · rename_i hcond
      simp only [Bool.and_eq_true, beq_iff_eq] at hcond
      obtain ⟨⟨hc, hs1⟩, hs2⟩ := hcond
      simp only [Option.some.injEq] at h
      subst h
      exact val2_le hs1 hs2
    · exact absurd h (by simp)
  · exact absurd h (by simp)

theorem matchMSAt_bounds {l : List Char} {m s : Nat}
    (h : matchMSAt l = some (m, s)) : m ≤ 99 ∧ s ≤ 99 := by
  unfold matchMSAt at h
  split at h
  · rename_i a b rest
    split at h
    · rename_i ha
      split at h
      · rename_i hb
        split at h
        · rename_i s1 ht
          simp only [Option.some.injEq, Prod.mk.injEq] at h
          obtain ⟨rfl, rfl⟩ := h
          exact ⟨val2_le ha hb, tailSS_bounds ht⟩
        · split at h
          · rename_i s1 ht
            simp only [Option.some.injEq, Prod.mk.injEq] at h
            obtain ⟨rfl, rfl⟩ := h
            exact ⟨le_trans (dval_le ha) (by omega), tailSS_bounds ht⟩
          · exact absurd h (by simp)
      · split at h
        · rename_i s1 ht
          simp only [Option.some.injEq, Prod.mk.injEq] at h
          obtain ⟨rfl, rfl⟩ := h
          exact ⟨le_trans (dval_le ha) (by omega), tailSS_bounds ht⟩
        · exact absurd h (by simp)
    · exact absurd h (by simp)
  · exact absurd h (by simp)

theorem searchMS_bounds :
    ∀ {l : List Char} {m s : Nat}, searchMS l = some (m, s) → m ≤ 99 ∧ s ≤ 99 := by
  intro l
  induction l with
  | nil => intro m s h; exact absurd h (by simp [searchMS])
  | cons a t ih =>
    intro m s h
    unfold searchMS at h
    split at h
    · rename_i r hr
      simp only [Option.some.injEq] at h
      subst h
      exact matchMSAt_bounds hr
    · exact ih h

/-! ## Behaviour when the input has no digits at all -/

theorem matchExactHHMMSS_digit {l : List Char} (h : matchExactHHMMSS l = true) :
    ∃ c ∈ l, isDig c = true := by
  obtain ⟨a, b, d, e, g, k, rfl, ha, _⟩ := matchExactHHMMSS_elim h
  exact ⟨a, by simp, ha⟩

theorem matchExactMSS_digit {l : List Char} {p : Nat × Nat}
    (h : matchExactMSS l = some p) : ∃ c ∈ l, isDig c = true := by
  obtain ⟨m, s⟩ := p
  rcases matchExactMSS_elim h with
    ⟨a, d, e, rfl, ha, _⟩ | ⟨a, b, d, e, rfl, ha, _⟩
  · exact ⟨a, by simp, ha⟩
  · exact ⟨a, by simp, ha⟩

theorem matchHMSAt_no_digit {l : List Char}
    (h : ∀ c ∈ l, isDig c = false) : matchHMSAt l = none := by
  unfold matchHMSAt
  split
  · rename_i a b rest
    rw [h a (by simp)]
    simp
  · rfl

theorem searchHMS_no_digit :
    ∀ {l : List Char}, (∀ c ∈ l, isDig c = false) → searchHMS l = none := by
  intro l
  induction l with
  | nil => intro _; rfl
  | cons a t ih =>
    intro h
    unfold searchHMS
    rw [matchHMSAt_no_digit h]
    exact ih (fun c hc => h c (List.mem_cons_of_mem a hc))

theorem matchMSAt_no_digit {l : List Char}
    (h : ∀ c ∈ l, isDig c = false) : matchMSAt l = none := by
  unfold matchMSAt
  split
  · rename_i a b rest
    rw [h a (by simp)]
    simp
  · rfl

theorem searchMS_no_digit :
    ∀ {l : List Char}, (∀ c ∈ l, isDig c = false) → searchMS l = none := by
  intro l
  induction l with
  | nil => intro _; rfl
  | cons a t ih =>
    intro h
    unfold searchMS
    rw [matchMSAt_no_digit h]
    exact ih (fun c hc => h c (List.mem_cons_of_mem a hc))

theorem isAllDigits_no_digit {l : List Char}
    (h : ∀ c ∈ l, isDig c = false) : isAllDigits l = false := by
  cases l with
  | nil => rfl
  | cons a t =>
    unfold isAllDigits
    have := h a (by simp)
    simp [this]

/-! ## The all-digits fast path of the normalizer -/

theorem matchExactHHMMSS_of_digits {l : List Char}
    (h : ∀ c ∈ l, isDig c = true) : matchExactHHMMSS l = false := by
  cases hm : matchExactHHMMSS l with
  | false => rfl
  | true =>
    have hc := matchExactHHMMSS_colon hm
    exact absurd rfl (isDig_ne_colon (h ':' hc))

theorem matchExactMSS_of_digits {l : List Char}
    (h : ∀ c ∈ l, isDig c = true) : matchExactMSS l = none := by
  cases hm : matchExactMSS l with
  | none => rfl
  | some p =>
    have hc := matchExactMSS_colon hm
    exact absurd rfl (isDig_ne_colon (h ':' hc))

/-- On a non-empty all-digit string the normalizer takes exactly the
seconds-count rule. -/
theorem parse_of_digits {s : String} (h1 : s.data ≠ [])
    (h2 : ∀ c ∈ s.data, isDig c = true) :
    parse_timestamp_to_hhmmss s = seconds_to_hhmmss (strToNat s.data) := by
  unfold parse_timestamp_to_hhmmss
  rw [pyStrip_of_digits h2]
  simp only [matchExactHHMMSS_of_digits h2, matchExactMSS_of_digits h2,
    isAllDigits_iff.mpr ⟨h1, h2⟩, Bool.false_eq_true, if_false, if_true]

theorem string_mk_data (s : String) : String.mk s.data = s := rfl

theorem splitCols_fmt (x y z : String)
    (hx : ∀ c ∈ x.data, c ≠ ':') (hy : ∀ c ∈ y.data, c ≠ ':')
    (hz : ∀ c ∈ z.data, c ≠ ':') :
    splitCols (x ++ ":" ++ y ++ ":" ++ z).data = [x, y, z] := by
  rw [fmt_data, splitCols_three hx hy hz, string_mk_data, string_mk_data,
    string_mk_data]

theorem splitCols_fmt00 (y z : String)
    (hy : ∀ c ∈ y.data, c ≠ ':') (hz : ∀ c ∈ z.data, c ≠ ':') :
    splitCols ("00:" ++ y ++ ":" ++ z).data = [String.mk ['0', '0'], y, z] := by
  rw [fmt00_data]
  rw [show (['0', '0'] ++ ':' :: (y.data ++ ':' :: z.data)) =
    (['0', '0'] ++ ':' :: (y.data ++ ':' :: z.data)) from rfl]
  rw [splitCols_three (by decide) hy hz, string_mk_data, string_mk_data]

theorem splitCols_seconds (n : Nat) :
    splitCols (seconds_to_hhmmss n).data =
      [pad2 (n / 3600), pad2 (n % 3600 / 60), pad2 (n % 60)] := by
  unfold seconds_to_hhmmss
  exact splitCols_fmt _ _ _ pad2_no_colon pad2_no_colon pad2_no_colon

/-- C4: the normalizer is total and never raises — it is a plain function on
all of `String` — and on any input with no digit at all (the empty string
included) no numeric rule can match, so it returns the default "00:00:00". -/
theorem C4_normalizer_total (ts : String)
    (h : ∀ c ∈ ts.data, isDig c = false) :
    parse_timestamp_to_hhmmss ts = "00:00:00" := by
  have hstrip : ∀ c ∈ pyStrip ts.data, isDig c = false :=
    fun c hc => h c (pyStrip_mem hc)
  have h1 : matchExactHHMMSS (pyStrip ts.data) = false := by
    cases hm : matchExactHHMMSS (pyStrip ts.data) with
    | false => rfl
    | true =>
      obtain ⟨c, hc, hd⟩ := matchExactHHMMSS_digit hm
      rw [hstrip c hc] at hd
      cases hd
  have h2 : matchExactMSS (pyStrip ts.data) = none := by
    cases hm : matchExactMSS (pyStrip ts.data) with
    | none => rfl
    | some p =>
      obtain ⟨c, hc, hd⟩ := matchExactMSS_digit hm
      rw [hstrip c hc] at hd
      cases hd
  have h3 : isAllDigits (pyStrip ts.data) = false := isAllDigits_no_digit hstrip
  have h4 : searchHMS (pyStrip ts.data) = none := searchHMS_no_digit hstrip
  have h5 : searchMS (pyStrip ts.data) = none := searchMS_no_digit hstrip
  unfold parse_timestamp_to_hhmmss
  simp only [h1, h2, h3, h4, h5, Bool.false_eq_true, if_false]

/-- Witness for C4 at the concrete digit-free input of the spec's test
list, the hypothesis discharged by evaluation. -/
theorem C4_normalizer_total_witness :
    (∀ c ∈ ("no timestamps here").data, isDig c = false) ∧
      parse_timestamp_to_hhmmss ("no timestamps here") = "00:00:00" :=
  ⟨by decide, C4_normalizer_total ("no timestamps here") (by decide)⟩

/-- C5: normalizing the decimal rendering of any `n < 86400` yields three
colon-separated fields that parse back to integers recombining to `n`. -/
theorem C5_seconds_roundtrip (n : Nat) (h : n < 86400) :
    ∃ hs ms ss : String,
      splitCols (parse_timestamp_to_hhmmss (natToString n)).data = [hs, ms, ss] ∧
        strToNat hs.data * 3600 + strToNat ms.data * 60 + strToNat ss.data = n := by
  have hdig : ∀ c ∈ (natToString n).data, isDig c = true := natToString_all_dig n
  rw [parse_of_digits (natToString_ne_nil n) hdig, strToNat_natToString]
  refine ⟨pad2 (n / 3600), pad2 (n % 3600 / 60), pad2 (n % 60),
    splitCols_seconds n, ?_⟩
  rw [strToNat_pad2, strToNat_pad2, strToNat_pad2]
  omega

/-- Witness for C5 at n = 347 (the spec's own example, 347 s = 00:05:47). -/
theorem C5_seconds_roundtrip_witness :
    347 < 86400 ∧
      ∃ hs ms ss : String,
        splitCols (parse_timestamp_to_hhmmss (natToString 347)).data = [hs, ms, ss] ∧
          strToNat hs.data * 3600 + strToNat ms.data * 60 + strToNat ss.data = 347 :=
  ⟨by omega, C5_seconds_roundtrip 347 (by omega)⟩

/-- C8: on an all-digit input worth at least 360000 seconds the hour field
of the output is wider than two characters while minutes and seconds stay
two-digit zero-padded digit fields — hours are not clamped. -/
theorem C8_hours_not_clamped (s : String) (h1 : s.data ≠ [])
    (h2 : ∀ c ∈ s.data, isDig c = true) (h3 : 360000 ≤ strToNat s.data) :
    ∃ hs ms ss : String,
      splitCols (parse_timestamp_to_hhmmss s).data = [hs, ms, ss] ∧
        2 < hs.length ∧ ms.length = 2 ∧ ss.length = 2 ∧
        (∀ c ∈ hs.data, isDig c = true) ∧ (∀ c ∈ ms.data, isDig c = true) ∧
        (∀ c ∈ ss.data, isDig c = true) := by
  rw [parse_of_digits h1 h2]
  refine ⟨pad2 (strToNat s.data / 3600), pad2 (strToNat s.data % 3600 / 60),
    pad2 (strToNat s.data % 60), splitCols_seconds _, ?_, ?_, ?_,
    pad2_all_dig _, pad2_all_dig _, pad2_all_dig _⟩
  · exact pad2_length_ge_three (by omega)
  · exact pad2_length_eq_two (by omega)
  · exact pad2_length_eq_two (by omega)

/-- Witness for C8 at the all-digit input "360125" (100:02:05). -/
theorem C8_hours_not_clamped_witness :
    ("360125" : String).data ≠ [] ∧ (∀ c ∈ ("360125" : String).data, isDig c = true) ∧
      360000 ≤ strToNat ("360125" : String).data ∧
      ∃ hs ms ss : String,
        splitCols (parse_timestamp_to_hhmmss ("360125")).data = [hs, ms, ss] ∧
          2 < hs.length ∧ ms.length = 2 ∧ ss.length = 2 ∧
          (∀ c ∈ hs.data, isDig c = true) ∧ (∀ c ∈ ms.data, isDig c = true) ∧
          (∀ c ∈ ss.data, isDig c = true) :=
  ⟨by decide, by decide, by decide,
    C8_hours_not_clamped ("360125") (by decide) (by decide) (by decide)⟩

theorem string_data_mk (l : List Char) : (String.mk l).data = l := rfl

/-- C3 (amended): every output of the normalizer has the canonical shape —
three colon-separated all-digit fields, two-digit minutes and seconds,
at-least-two-digit hours, the hour field wider than two characters only
when the all-digits seconds rule fired on a value of at least 360000.
The numeric range [00,59] of the original claim does not hold (see the
counterexample): pass-through and extraction rules keep fields up to 99. -/
theorem C3_output_shape (ts : String) :
    ∃ hs ms ss : String,
      splitCols (parse_timestamp_to_hhmmss ts).data = [hs, ms, ss] ∧
        (∀ c ∈ hs.data, isDig c = true) ∧ (∀ c ∈ ms.data, isDig c = true) ∧
        (∀ c ∈ ss.data, isDig c = true) ∧
        2 ≤ hs.length ∧ ms.length = 2 ∧ ss.length = 2 ∧
        (2 < hs.length →
          isAllDigits (pyStrip ts.data) = true ∧
            360000 ≤ strToNat (pyStrip ts.data)) := by
  unfold parse_timestamp_to_hhmmss
  cases h1 : matchExactHHMMSS (pyStrip ts.data) with
  | true =>
    simp only [h1, if_true]
    obtain ⟨a, b, d, e, g, k, hl, ha, hb, hd, he, hg, hk⟩ :=
      matchExactHHMMSS_elim h1
    rw [hl]
    have hsplit : splitCols [a, b, ':', d, e, ':', g, k] =
        [String.mk [a, b], String.mk [d, e], String.mk [g, k]] := by
      have := splitCols_three (a := [a, b]) (b := [d, e]) (c := [g, k])
        (by intro x hx; rcases List.mem_pair.mp hx with rfl | rfl
            · exact isDig_ne_colon ha
            · exact isDig_ne_colon hb)
        (by intro x hx; rcases List.mem_pair.mp hx with rfl | rfl
            · exact isDig_ne_colon hd
            · exact isDig_ne_colon he)
        (by intro x hx; rcases List.mem_pair.mp hx with rfl | rfl
            · exact isDig_ne_colon hg
            · exact isDig_ne_colon hk)
      exact this
    refine ⟨String.mk [a, b], String.mk [d, e], String.mk [g, k], hsplit,
      ?_, ?_, ?_, Nat.le_refl 2, rfl, rfl,
      fun hcon => absurd hcon (by exact (by omega : ¬ (2 : Nat) < 2))⟩
    · intro c hc
      rcases List.mem_pair.mp hc with rfl | rfl
      · exact ha
      · exact hb
    · intro c hc
      rcases List.mem_pair.mp hc with rfl | rfl
      · exact hd
      · exact he
    · intro c hc
      rcases List.mem_pair.mp hc with rfl | rfl
      · exact hg
      · exact hk
  | false =>
    cases h2 : matchExactMSS (pyStrip ts.data) with
    | some p =>
      obtain ⟨m, s⟩ := p
      simp only [h1, h2, Bool.false_eq_true, if_false]
      obtain ⟨hm, hs⟩ := matchExactMSS_bounds h2
      refine ⟨String.mk ['0', '0'], pad2 m, pad2 s,
        splitCols_fmt00 _ _ pad2_no_colon pad2_no_colon,
        by decide, pad2_all_dig m, pad2_all_dig s, by decide,
        pad2_length_eq_two (by omega), pad2_length_eq_two (by omega),
        fun hcon => absurd hcon (by decide)⟩
    | none =>
      cases h3 : isAllDigits (pyStrip ts.data) with
      | true =>
        simp only [h1, h2, h3, Bool.false_eq_true, if_false, if_true]
        refine ⟨pad2 (strToNat (pyStrip ts.data) / 3600),
          pad2 (strToNat (pyStrip ts.data) % 3600 / 60),
          pad2 (strToNat (pyStrip ts.data) % 60), splitCols_seconds _,
          pad2_all_dig _, pad2_all_dig _, pad2_all_dig _,
          pad2_length_ge_two _, pad2_length_eq_two (by omega),
          pad2_length_eq_two (by omega), ?_⟩
        intro hcon
        have h100 := pad2_length_overflow hcon
        refine ⟨?_, by omega⟩
        simp [h3]
      | false =>
        cases h4 : searchHMS (pyStrip ts.data) with
        | some t =>
          obtain ⟨x, m, s⟩ := t
          simp only [h1, h2, h3, h4, Bool.false_eq_true, if_false]
          obtain ⟨hx, hm, hs⟩ := searchHMS_bounds h4
          refine ⟨pad2 x, pad2 m, pad2 s,
            splitCols_fmt _ _ _ pad2_no_colon pad2_no_colon pad2_no_colon,
            pad2_all_dig x, pad2_all_dig m, pad2_all_dig s,
            pad2_length_ge_two x, pad2_length_eq_two (by omega),
            pad2_length_eq_two (by omega), ?_⟩
          intro hcon
          have := pad2_length_overflow hcon
          omega
        | none =>
          cases h5 : searchMS (pyStrip ts.data) with
          | some p =>
            obtain ⟨m, s⟩ := p
            simp only [h1, h2, h3, h4, h5, Bool.false_eq_true, if_false]
            obtain ⟨hm, hs⟩ := searchMS_bounds h5
            refine ⟨String.mk ['0', '0'], pad2 m, pad2 s,
              splitCols_fmt00 _ _ pad2_no_colon pad2_no_colon,
              by decide, pad2_all_dig m, pad2_all_dig s, by decide,
              pad2_length_eq_two (by omega), pad2_length_eq_two (by omega),
              fun hcon => absurd hcon (by decide)⟩
          | none =>
            simp only [h1, h2, h3, h4, h5, Bool.false_eq_true, if_false]
            exact ⟨String.mk ['0', '0'], String.mk ['0', '0'], String.mk ['0', '0'],
              by decide, by decide, by decide, by decide, by decide, by decide,
              by decide, fun hcon => absurd hcon (by decide)⟩

/-- Counterexample to C3 as stated: the canonical-looking input "00:99:99"
is returned unchanged by rule 1, so its minutes field reads 99, outside
[00,59]. -/
theorem C3_counterexample :
    parse_timestamp_to_hhmmss ("00:99:99") = "00:99:99" ∧
      splitCols (parse_timestamp_to_hhmmss ("00:99:99")).data =
        [String.mk ['0', '0'], String.mk ['9', '9'], String.mk ['9', '9']] ∧
      59 < strToNat (String.mk ['9', '9']).data :=
  ⟨by decide, by decide, by decide⟩

/-- C1: the normalizer is exactly the spec's six ordered rules with
first-match-wins: for every input some rule index `i` in 1..6 produces
exactly the normalizer's output on the stripped input while every earlier
rule fails to match — so exactly one rule determines the output and no
later rule is consulted — and the spec's embedded-extraction example holds. -/
theorem C1_six_ordered_rules :
    (∀ ts : String, ∃ i, 1 ≤ i ∧ i ≤ 6 ∧
      specRuleOut i (pyStrip ts.data) = some (parse_timestamp_to_hhmmss ts) ∧
        ∀ j, 1 ≤ j → j < i → specRuleOut j (pyStrip ts.data) = none) ∧
      parse_timestamp_to_hhmmss ("topic discussed at 1:02:03 in the clip") =
        "01:02:03" := by
  refine ⟨fun ts => ?_, by decide⟩
  cases h1 : matchExactHHMMSS (pyStrip ts.data) with
  | true =>
    refine ⟨1, by omega, by omega, ?_, fun j hj1 hj2 => absurd hj1 (by omega)⟩
    unfold parse_timestamp_to_hhmmss specRuleOut
    simp only [h1, if_true]
  | false =>
    cases h2 : matchExactMSS (pyStrip ts.data) with
    | some p =>
      obtain ⟨m, s⟩ := p
      refine ⟨2, by omega, by omega, ?_, ?_⟩
      · unfold parse_timestamp_to_hhmmss specRuleOut
        simp only [h1, h2, Bool.false_eq_true, if_false, Option.map_some']
      · intro j hj1 hj2
        have : j = 1 := by omega
        subst this
        unfold specRuleOut
        simp only [h1, Bool.false_eq_true, if_false]
    | none =>
      cases h3 : isAllDigits (pyStrip ts.data) with
      | true =>
        refine ⟨3, by omega, by omega, ?_, ?_⟩
        · unfold parse_timestamp_to_hhmmss specRuleOut
          simp only [h1, h2, h3, Bool.false_eq_true, if_false, if_true,
            Option.map_none']
        · intro j hj1 hj2
          interval_cases j
          · unfold specRuleOut
            simp only [h1, Bool.false_eq_true, if_false]
          · unfold specRuleOut
            simp only [h2, Option.map_none']
      | false =>
        cases h4 : searchHMS (pyStrip ts.data) with
        | some t =>
          obtain ⟨x, m, s⟩ := t
          refine ⟨4, by omega, by omega, ?_, ?_⟩
          · unfold parse_timestamp_to_hhmmss specRuleOut
            simp only [h1, h2, h3, h4, Bool.false_eq_true, if_false,
              Option.map_some']
          · intro j hj1 hj2
            interval_cases j
            · unfold specRuleOut
              simp only [h1, Bool.false_eq_true, if_false]
            · unfold specRuleOut
              simp only [h2, Option.map_none']
            · unfold specRuleOut
              simp only [h3, Bool.false_eq_true, if_false]
        | none =>
          cases h5 : searchMS (pyStrip ts.data) with
          | some p =>
            obtain ⟨m, s⟩ := p
            refine ⟨5, by omega, by omega, ?_, ?_⟩
            · unfold parse_timestamp_to_hhmmss specRuleOut
              simp only [h1, h2, h3, h4, h5, Bool.false_eq_true, if_false,
                Option.map_some']
            · intro j hj1 hj2
              interval_cases j
              · unfold specRuleOut
                simp only [h1, Bool.false_eq_true, if_false]
              · unfold specRuleOut
                simp only [h2, Option.map_none']
              · unfold specRuleOut
                simp only [h3, Bool.false_eq_true, if_false]
              · unfold specRuleOut
                simp only [h4, Option.map_none']
          | none =>
            refine ⟨6, by omega, by omega, ?_, ?_⟩
            · unfold parse_timestamp_to_hhmmss specRuleOut
              simp only [h1, h2, h3, h4, h5, Bool.false_eq_true, if_false]
            · intro j hj1 hj2
              interval_cases j
              · unfold specRuleOut
                simp only [h1, Bool.false_eq_true, if_false]
              · unfold specRuleOut
                simp only [h2, Option.map_none']
              · unfold specRuleOut
                simp only [h3, Bool.false_eq_true, if_false]
              · unfold specRuleOut
                simp only [h4, Option.map_none']
              · unfold specRuleOut
                simp only [h5, Option.map_none']

/-! ## The video-id extractor as a leftmost search -/

theorem matchIdAt_nil : matchIdAt [] = none := rfl

theorem searchId_none_iff :
    ∀ l : List Char, searchId l = none ↔ ∀ i, matchIdAt (l.drop i) = none := by
  intro l
  induction l with
  | nil =>
    constructor
    · intro _ i
      rw [List.drop_nil]
      exact matchIdAt_nil
    · intro _
      rfl
  | cons a t ih =>
    constructor
    · intro h i
      unfold searchId at h
      cases hm : matchIdAt (a :: t) with
      | some s => rw [hm] at h; cases h
      | none =>
        rw [hm] at h
        cases i with
        | zero => exact hm
        | succ k =>
          rw [List.drop_succ_cons]
          exact (ih.mp h) k
    · intro h
      unfold searchId
      have h0 := h 0
      rw [List.drop_zero] at h0
      rw [h0]
      exact ih.mpr (fun i => by have := h (i + 1); rwa [List.drop_succ_cons] at this)

theorem searchId_some_iff :
    ∀ (l : List Char) (s : String), searchId l = some s ↔
      ∃ i, matchIdAt (l.drop i) = some s ∧
        ∀ j, j < i → matchIdAt (l.drop j) = none := by
  intro l
  induction l with
  | nil =>
    intro s
    constructor
    · intro h; cases h
    · intro ⟨i, hi, _⟩
      rw [List.drop_nil] at hi
      exact absurd hi (by simp [matchIdAt_nil])
  | cons a t ih =>
    intro s
    constructor
    · intro h
      unfold searchId at h
      cases hm : matchIdAt (a :: t) with
      | some s0 =>
        rw [hm] at h
        cases h
        exact ⟨0, hm, fun j hj => absurd hj (by omega)⟩
      | none =>
        rw [hm] at h
        obtain ⟨i, hi, hmin⟩ := (ih s).mp h
        refine ⟨i + 1, by rwa [List.drop_succ_cons], ?_⟩
        intro j hj
        cases j with
        | zero => exact hm
        | succ k =>
          rw [List.drop_succ_cons]
          exact hmin k (by omega)
    · intro ⟨i, hi, hmin⟩
      unfold searchId
      cases hm : matchIdAt (a :: t) with
      | some s0 =>
        cases i with
        | zero =>
          rw [List.drop_zero] at hi
          rw [hm] at hi
          cases hi
          rfl
        | succ k =>
          have := hmin 0 (by omega)
          rw [List.drop_zero] at this
          rw [hm] at this
          cases this
      | none =>
        cases i with
        | zero =>
          rw [List.drop_zero] at hi
          rw [hm] at hi
          cases hi
        | succ k =>
          refine (ih s).mpr ⟨k, by rwa [List.drop_succ_cons] at hi, ?_⟩
          intro j hj
          have := hmin (j + 1) (by omega)
          rwa [List.drop_succ_cons] at this

/-- C9: the extractor returns exactly the leftmost match of the video-id
pattern — the 11 identifier characters after `v=`, `youtu.be/` or `embed/`
(`matchIdAt`) at the first position where the pattern matches — and `none`
exactly when the pattern matches at no position; on the spec's canonical
URL shape it yields the identifier. -/
theorem C9_extractor_leftmost :
    (∀ (url : String) (s : String),
      extract_video_id url = some s ↔
        ∃ i, matchIdAt (url.data.drop i) = some s ∧
          ∀ j, j < i → matchIdAt (url.data.drop j) = none) ∧
    (∀ url : String,
      extract_video_id url = none ↔ ∀ i, matchIdAt (url.data.drop i) = none) ∧
    extract_video_id ("https://www.youtube.com/watch?v=dQw4w9WgXcQ") =
      some ("dQw4w9WgXcQ") := by
  refine ⟨fun url s => ?_, fun url => ?_, by decide⟩
  · exact searchId_some_iff url.data s
  · exact searchId_none_iff url.data

/-! ## The readiness poll -/

theorem pollLoopAux_irrel :
    ∀ (f1 : Nat) (f2 : Nat) (fetch : Nat → String) (i w : Nat),
      120 ≤ w + 3 * f1 → 120 ≤ w + 3 * f2 →
        pollLoopAux f1 fetch i w = pollLoopAux f2 fetch i w := by
  intro f1
  induction f1 with
  | zero =>
    intro f2 fetch i w h1 h2
    cases f2 with
    | zero => rfl
    | succ g =>
      show _ = if fetch i ≠ "ACTIVE" ∧ w < 120 then _ else (i, w)
      rw [if_neg (by omega)]
      rfl
  | succ f ih =>
    intro f2 fetch i w h1 h2
    cases f2 with
    | zero =>
      show (if fetch i ≠ "ACTIVE" ∧ w < 120 then _ else (i, w)) = _
      rw [if_neg (by omega)]
      rfl
    | succ g =>
      show (if fetch i ≠ "ACTIVE" ∧ w < 120 then pollLoopAux f fetch (i + 1) (w + 3) else (i, w)) =
        if fetch i ≠ "ACTIVE" ∧ w < 120 then pollLoopAux g fetch (i + 1) (w + 3) else (i, w)
      by_cases hc : fetch i ≠ "ACTIVE" ∧ w < 120
      · rw [if_pos hc, if_pos hc]
        exact ih g fetch (i + 1) (w + 3) (by omega) (by omega)
      · rw [if_neg hc, if_neg hc]

/-- `pollLoop` satisfies exactly the while loop's recurrence of the /ask
handler: test, then sleep 3, add 3 and re-fetch. -/
theorem pollLoop_eq (fetch : Nat → String) (i w : Nat) :
    pollLoop fetch i w =
      if fetch i ≠ "ACTIVE" ∧ w < 120 then pollLoop fetch (i + 1) (w + 3)
      else (i, w) := by
  show pollLoopAux 41 fetch i w = _
  have h1 : 120 ≤ w + 3 * 41 := by omega
  by_cases hc : fetch i ≠ "ACTIVE" ∧ w < 120
  · rw [if_pos hc]
    show (if fetch i ≠ "ACTIVE" ∧ w < 120 then pollLoopAux 40 fetch (i + 1) (w + 3) else (i, w)) = _
    rw [if_pos hc]
    exact pollLoopAux_irrel 40 41 fetch (i + 1) (w + 3) (by omega) (by omega)
  · rw [if_neg hc]
    show (if fetch i ≠ "ACTIVE" ∧ w < 120 then pollLoopAux 40 fetch (i + 1) (w + 3) else (i, w)) = (i, w)
    rw [if_neg hc]

theorem pollLoopAux_spec :
    ∀ (fuel : Nat) (fetch : Nat → String) (i w : Nat),
      w = 3 * i → w ≤ 120 → 120 ≤ w + 3 * fuel →
        (pollLoopAux fuel fetch i w).2 = 3 * (pollLoopAux fuel fetch i w).1 ∧
        i ≤ (pollLoopAux fuel fetch i w).1 ∧
        (pollLoopAux fuel fetch i w).2 ≤ 120 ∧
        (fetch (pollLoopAux fuel fetch i w).1 = "ACTIVE" ∨
          (pollLoopAux fuel fetch i w).2 = 120) ∧
        (∀ j, i ≤ j → j < (pollLoopAux fuel fetch i w).1 → fetch j ≠ "ACTIVE") := by
  intro fuel
  induction fuel with
  | zero =>
    intro fetch i w h1 h2 h3
    have heq : pollLoopAux 0 fetch i w = (i, w) := rfl
    rw [heq]
    refine ⟨h1, le_refl i, h2, Or.inr (by omega), fun j hj1 hj2 => absurd hj1 (by omega)⟩
  | succ f ih =>
    intro fetch i w h1 h2 h3
    have heq : pollLoopAux (f + 1) fetch i w =
        if fetch i ≠ "ACTIVE" ∧ w < 120 then pollLoopAux f fetch (i + 1) (w + 3)
        else (i, w) := rfl
    rw [heq]
    by_cases hc : fetch i ≠ "ACTIVE" ∧ w < 120
    · rw [if_pos hc]
      obtain ⟨ha, hb, hcle, hd, he⟩ :=
        ih fetch (i + 1) (w + 3) (by omega) (by omega) (by omega)
      refine ⟨ha, by omega, hcle, hd, ?_⟩
      intro j hj1 hj2
      rcases Nat.eq_or_lt_of_le hj1 with rfl | hlt
      · exact hc.1
      · exact he j (by omega) hj2
    · rw [if_neg hc]
      push_neg at hc
      refine ⟨h1, le_refl i, h2, ?_, fun j hj1 hj2 => absurd hj1 (by omega)⟩
      by_cases hr : fetch i = "ACTIVE"
      · exact Or.inl hr
      · have := hc hr
        exact Or.inr (by omega)

/-! ## Branch equations of the /ask handler -/

theorem askMain_dlRaises {w : World} {url topic msg : String}
    (h : w.dlRaises = some msg) :
    askMain w url topic =
      ⟨Outcome.httpError 500 msg, origAudio, none, [Effect.runDownloader url]⟩ := by
  unfold askMain
  rw [h]

theorem askMain_badExit {w : World} {url topic : String}
    (h0 : w.dlRaises = none) (h : w.returncode ≠ 0) :
    askMain w url topic =
      ⟨Outcome.httpError 400 ("yt-dlp error: " ++ w.stderrTxt), origAudio, none,
        [Effect.runDownloader url]⟩ := by
  unfold askMain
  rw [h0]
  simp only [if_pos h]

theorem askMain_noFile {w : World} {url topic : String}
    (h0 : w.dlRaises = none) (h1 : w.returncode = 0)
    (h2 : w.fExists (finalAudio w) = false) :
    askMain w url topic =
      ⟨Outcome.httpError 500 "Audio file not created", finalAudio w, none,
        [Effect.runDownloader url]⟩ := by
  unfold askMain
  rw [h0]
  simp only [h1, h2, ne_eq, not_true_eq_false, if_false, if_true, not_false_eq_true,
    if_neg (by simp : ¬(0 : Int) ≠ 0)]

theorem askMain_uploadErr {w : World} {url topic msg : String}
    (h0 : w.dlRaises = none) (h1 : w.returncode = 0)
    (h2 : w.fExists (finalAudio w) = true) (h3 : w.upload = Except.error msg) :
    askMain w url topic =
      ⟨Outcome.httpError 500 msg, finalAudio w, none,
        [Effect.runDownloader url, Effect.uploadFile (finalAudio w)]⟩ := by
  unfold askMain
  rw [h0]
  simp only [h1, h2, h3, Bool.true_eq_false, if_false,
    if_neg (by simp : ¬(0 : Int) ≠ 0)]

theorem askMain_pollTimeout {w : World} {url topic name : String}
    (h0 : w.dlRaises = none) (h1 : w.returncode = 0)
    (h2 : w.fExists (finalAudio w) = true) (h3 : w.upload = Except.ok name)
    (h4 : w.states (pollLoop w.states 0 0).1 ≠ "ACTIVE") :
    askMain w url topic =
      ⟨Outcome.httpError 500 "File processing timed out", finalAudio w, some name,
        [Effect.runDownloader url, Effect.uploadFile (finalAudio w)]⟩ := by
  unfold askMain
  rw [h0]
  simp only [h1, h2, h3, Bool.true_eq_false, if_false,
    if_neg (by simp : ¬(0 : Int) ≠ 0), if_pos h4]

theorem askMain_oracleErr {w : World} {url topic name msg : String}
    (h0 : w.dlRaises = none) (h1 : w.returncode = 0)
    (h2 : w.fExists (finalAudio w) = true) (h3 : w.upload = Except.ok name)
    (h4 : w.states (pollLoop w.states 0 0).1 = "ACTIVE")
    (h5 : w.generate = Except.error msg) :
    askMain w url topic =
      ⟨Outcome.httpError 500 msg, finalAudio w, some name,
        [Effect.runDownloader url, Effect.uploadFile (finalAudio w),
          Effect.generateContent]⟩ := by
  have h4' : ¬(w.states (pollLoop w.states 0 0).1 ≠ "ACTIVE") := by
    rw [h4]
    simp
  unfold askMain
  rw [h0]
  simp only [h1, h2, h3, h5, Bool.true_eq_false, if_false,
    if_neg (by simp : ¬(0 : Int) ≠ 0), if_neg h4']

theorem askMain_success {w : World} {url topic name raw : String}
    (h0 : w.dlRaises = none) (h1 : w.returncode = 0)
    (h2 : w.fExists (finalAudio w) = true) (h3 : w.upload = Except.ok name)
    (h4 : w.states (pollLoop w.states 0 0).1 = "ACTIVE")
    (h5 : w.generate = Except.ok raw) :
    askMain w url topic =
      ⟨Outcome.ok (parse_timestamp_to_hhmmss raw) url topic, finalAudio w, some name,
        [Effect.runDownloader url, Effect.uploadFile (finalAudio w),
          Effect.generateContent]⟩ := by
  have h4' : ¬(w.states (pollLoop w.states 0 0).1 ≠ "ACTIVE") := by
    rw [h4]
    simp
  unfold askMain
  rw [h0]
  simp only [h1, h2, h3, h5, Bool.true_eq_false, if_false,
    if_neg (by simp : ¬(0 : Int) ≠ 0), if_neg h4']

theorem ask_fst (w : World) (url topic : String) :
    (ask w url topic).1 = (askMain w url topic).primary := rfl

theorem ask_snd (w : World) (url topic : String) :
    (ask w url topic).2 =
      (askMain w url topic).effects ++ cleanupEffects (askMain w url topic) w := rfl

/-- The try-block's effect list is one of three downloader-first shapes and
its `tmp_audio` is the original path or the resolved one. -/
theorem askMain_shape (w : World) (url topic : String) :
    ((askMain w url topic).effects = [Effect.runDownloader url] ∨
      (askMain w url topic).effects =
        [Effect.runDownloader url, Effect.uploadFile (finalAudio w)] ∨
      (askMain w url topic).effects =
        [Effect.runDownloader url, Effect.uploadFile (finalAudio w),
          Effect.generateContent]) ∧
    ((askMain w url topic).tmpAudio = origAudio ∨
      (askMain w url topic).tmpAudio = finalAudio w) := by
  cases h0 : w.dlRaises with
  | some msg => rw [askMain_dlRaises h0]; exact ⟨Or.inl rfl, Or.inl rfl⟩
  | none =>
    by_cases h1 : w.returncode = 0
    · cases h2 : w.fExists (finalAudio w) with
      | false => rw [askMain_noFile h0 h1 h2]; exact ⟨Or.inl rfl, Or.inr rfl⟩
      | true =>
        cases h3 : w.upload with
        | error msg =>
          rw [askMain_uploadErr h0 h1 h2 h3]
          exact ⟨Or.inr (Or.inl rfl), Or.inr rfl⟩
        | ok name =>
          by_cases h4 : w.states (pollLoop w.states 0 0).1 = "ACTIVE"
          · cases h5 : w.generate with
            | error msg =>
              rw [askMain_oracleErr h0 h1 h2 h3 h4 h5]
              exact ⟨Or.inr (Or.inr rfl), Or.inr rfl⟩
            | ok raw =>
              rw [askMain_success h0 h1 h2 h3 h4 h5]
              exact ⟨Or.inr (Or.inr rfl), Or.inr rfl⟩
          · rw [askMain_pollTimeout h0 h1 h2 h3 h4]
            exact ⟨Or.inr (Or.inl rfl), Or.inr rfl⟩
    · rw [askMain_badExit h0 h1]
      exact ⟨Or.inl rfl, Or.inl rfl⟩

theorem askMain_effects_mem (w : World) (url topic : String) :
    ∀ e ∈ (askMain w url topic).effects,
      e = Effect.runDownloader url ∨ e = Effect.uploadFile (finalAudio w) ∨
        e = Effect.generateContent := by
  intro e he
  rcases (askMain_shape w url topic).1 with hs | hs | hs <;> rw [hs] at he <;>
    simp at he
  · exact Or.inl he
  · rcases he with he | he
    · exact Or.inl he
    · exact Or.inr (Or.inl he)
  · rcases he with he | he | he
    · exact Or.inl he
    · exact Or.inr (Or.inl he)
    · exact Or.inr (Or.inr he)

theorem cleanup_mem {m : MainResult} {w : World} {e : Effect}
    (h : e ∈ cleanupEffects m w) :
    (e = Effect.removeFile m.tmpAudio ∧ w.fExists m.tmpAudio = true) ∨
      (∃ n, m.uploaded = some n ∧ e = Effect.deleteRemote n) := by
  unfold cleanupEffects at h
  rcases List.mem_append.mp h with h1 | h1
  · split at h1
    · exact Or.inl ⟨List.mem_singleton.mp h1, by assumption⟩
    · cases h1
  · split at h1
    · rename_i n hu
      exact Or.inr ⟨n, hu, List.mem_singleton.mp h1⟩
    · cases h1

theorem cleanup_count_delete {m : MainResult} {w : World} {n : String}
    (h : m.uploaded = some n) :
    List.count (Effect.deleteRemote n) (cleanupEffects m w) = 1 := by
  unfold cleanupEffects
  rw [h, List.count_append]
  have h2 : List.count (Effect.deleteRemote n) [Effect.deleteRemote n] = 1 := by
    simp
  rw [h2]
  have h1 : List.count (Effect.deleteRemote n)
      (if w.fExists m.tmpAudio = true then [Effect.removeFile m.tmpAudio]
       else []) = 0 := by
    split
    · simp
    · simp
  rw [h1]

theorem cleanup_remove_mem {m : MainResult} {w : World}
    (h : w.fExists m.tmpAudio = true) :
    Effect.removeFile m.tmpAudio ∈ cleanupEffects m w := by
  unfold cleanupEffects
  rw [if_pos h]
  simp

theorem main_count_zero_delete (w : World) (url topic : String) (n : String) :
    List.count (Effect.deleteRemote n) (askMain w url topic).effects = 0 := by
  rw [List.count_eq_zero]
  intro hmem
  rcases askMain_effects_mem w url topic _ hmem with h | h | h <;> cases h

theorem main_count_zero_remove (w : World) (url topic : String) (p : String) :
    List.count (Effect.removeFile p) (askMain w url topic).effects = 0 := by
  rw [List.count_eq_zero]
  intro hmem
  rcases askMain_effects_mem w url topic _ hmem with h | h | h <;> cases h

theorem cleanup_count_remove_le (m : MainResult) (w : World) (p : String) :
    List.count (Effect.removeFile p) (cleanupEffects m w) ≤ 1 := by
  unfold cleanupEffects
  rw [List.count_append]
  have h3 : List.count (Effect.removeFile p)
      (match m.uploaded with
       | some n => [Effect.deleteRemote n]
       | none => []) = 0 := by
    cases m.uploaded with
    | some n => simp
    | none => simp
  rw [h3]
  have h1 : List.count (Effect.removeFile p)
      (if w.fExists m.tmpAudio = true then [Effect.removeFile m.tmpAudio]
       else []) ≤ 1 := by
    split
    · rw [List.count_singleton']
      split <;> omega
    · simp
  omega

theorem finalAudio_ne_tmpDir (w : World) : finalAudio w ≠ tmpDir := by
  unfold finalAudio
  split
  · decide
  · split
    · rename_i f hf
      intro he
      have hlen := congrArg String.length he
      rw [String.length_append, String.length_append] at hlen
      have : String.length "/" = 1 := rfl
      omega
    · decide

theorem tmpAudio_ne_tmpDir (w : World) (url topic : String) :
    (askMain w url topic).tmpAudio ≠ tmpDir := by
  rcases (askMain_shape w url topic).2 with h | h <;> rw [h]
  · decide
  · exact finalAudio_ne_tmpDir w

/-- C6: the readiness poll re-fetches on a fixed 3-second interval (the
cumulative wait is exactly three times the number of sleep/refetch
iterations), performs at most 40 iterations so it always terminates, stops
as soon as a fetched state is ready or the 120-second ceiling is reached,
and when the final state is still not ready the request ends in the
processing-timeout error without ever reaching the query step. -/
theorem C6_poll_terminates :
    (∀ fetch : Nat → String,
      (pollLoop fetch 0 0).2 = 3 * (pollLoop fetch 0 0).1 ∧
        (pollLoop fetch 0 0).1 ≤ 40 ∧
        (fetch (pollLoop fetch 0 0).1 = "ACTIVE" ∨ (pollLoop fetch 0 0).2 = 120) ∧
        (∀ j, j < (pollLoop fetch 0 0).1 → fetch j ≠ "ACTIVE")) ∧
    (∀ (w : World) (url topic name : String),
      w.dlRaises = none → w.returncode = 0 →
        w.fExists (finalAudio w) = true → w.upload = Except.ok name →
          w.states (pollLoop w.states 0 0).1 ≠ "ACTIVE" →
            (ask w url topic).1 =
                Outcome.httpError 500 "File processing timed out" ∧
              Effect.generateContent ∉ (ask w url topic).2) := by
  constructor
  · intro fetch
    unfold pollLoop
    obtain ⟨ha, hb, hc, hd, he⟩ :=
      pollLoopAux_spec 41 fetch 0 0 rfl (by omega) (by omega)
    refine ⟨ha, by omega, ?_, fun j hj => he j (by omega) hj⟩
    rcases hd with h | h
    · exact Or.inl h
    · exact Or.inr h
  · intro w url topic name h0 h1 h2 h3 h4
    have hm := @askMain_pollTimeout w url topic name h0 h1 h2 h3 h4
    constructor
    · rw [ask_fst, hm]
    · rw [ask_snd]
      intro hmem
      rcases List.mem_append.mp hmem with hin | hin
      · rw [hm] at hin
        simp at hin
      · rcases cleanup_mem hin with ⟨he, _⟩ | ⟨n, _, he⟩ <;> cases he

/-- C2: on every exit path of the /ask handler the cleanup runs — the
local audio file's deletion happens whenever the recorded file exists, the
remote handle's deletion is requested exactly once whenever one was
allocated (in particular exactly once when the oracle step fails after a
successful upload), and the cleanup-failure flags of the world never
change the primary outcome, as each cleanup action's exception is
swallowed. -/
theorem C2_cleanup_all_paths :
    ∀ (w : World) (url topic : String),
      (w.fExists (askMain w url topic).tmpAudio = true →
        Effect.removeFile (askMain w url topic).tmpAudio ∈ (ask w url topic).2) ∧
      (∀ n, (askMain w url topic).uploaded = some n →
        List.count (Effect.deleteRemote n) (ask w url topic).2 = 1) ∧
      (∀ n msg, w.dlRaises = none → w.returncode = 0 →
        w.fExists (finalAudio w) = true → w.upload = Except.ok n →
          w.states (pollLoop w.states 0 0).1 = "ACTIVE" →
            w.generate = Except.error msg →
              List.count (Effect.deleteRemote n) (ask w url topic).2 = 1) ∧
      (∀ b1 b2 : Bool,
        (ask (setFlags w b1 b2) url topic).1 = (ask w url topic).1) := by
  intro w url topic
  have hcount : ∀ n, (askMain w url topic).uploaded = some n →
      List.count (Effect.deleteRemote n) (ask w url topic).2 = 1 := by
    intro n hn
    rw [ask_snd, List.count_append, main_count_zero_delete,
      cleanup_count_delete hn]
  refine ⟨?_, hcount, ?_, ?_⟩
  · intro hex
    rw [ask_snd]
    exact List.mem_append.mpr (Or.inr (cleanup_remove_mem hex))
  · intro n msg h0 h1 h2 h3 h4 h5
    refine hcount n ?_
    rw [@askMain_oracleErr w url topic n msg h0 h1 h2 h3 h4 h5]
  · intro b1 b2
    rfl

/-- C7: failure propagation — a non-zero downloader exit yields the
client-input status 400 carrying the downloader's stderr, distinct from
the server status 500 used when the audio file is missing, the poll times
out, the upload raises, the oracle raises, or the downloader call itself
raises; and nothing is retried: the trace invokes the downloader exactly
once and the upload and query at most once. -/
theorem C7_failure_propagation :
    ∀ (w : World) (url topic : String),
      (∀ msg, w.dlRaises = some msg →
        (ask w url topic).1 = Outcome.httpError 500 msg) ∧
      (w.dlRaises = none → w.returncode ≠ 0 →
        (ask w url topic).1 =
          Outcome.httpError 400 ("yt-dlp error: " ++ w.stderrTxt)) ∧
      (w.dlRaises = none → w.returncode = 0 →
        w.fExists (finalAudio w) = false →
          (ask w url topic).1 = Outcome.httpError 500 "Audio file not created") ∧
      (∀ msg, w.dlRaises = none → w.returncode = 0 →
        w.fExists (finalAudio w) = true → w.upload = Except.error msg →
          (ask w url topic).1 = Outcome.httpError 500 msg) ∧
      (∀ name, w.dlRaises = none → w.returncode = 0 →
        w.fExists (finalAudio w) = true → w.upload = Except.ok name →
          w.states (pollLoop w.states 0 0).1 ≠ "ACTIVE" →
            (ask w url topic).1 =
              Outcome.httpError 500 "File processing timed out") ∧
      (∀ name msg, w.dlRaises = none → w.returncode = 0 →
        w.fExists (finalAudio w) = true → w.upload = Except.ok name →
          w.states (pollLoop w.states 0 0).1 = "ACTIVE" →
            w.generate = Except.error msg →
              (ask w url topic).1 = Outcome.httpError 500 msg) ∧
      (∀ d1 d2 : String, Outcome.httpError 400 d1 ≠ Outcome.httpError 500 d2) ∧
      List.count (Effect.runDownloader url) (ask w url topic).2 = 1 ∧
      (∀ p, List.count (Effect.uploadFile p) (ask w url topic).2 ≤ 1) ∧
      List.count Effect.generateContent (ask w url topic).2 ≤ 1 := by
  intro w url topic
  have hclean : ∀ e ∈ cleanupEffects (askMain w url topic) w,
      (∃ p, e = Effect.removeFile p) ∨ ∃ n, e = Effect.deleteRemote n := by
    intro e he
    rcases cleanup_mem he with ⟨he1, _⟩ | ⟨n, _, he1⟩
    · exact Or.inl ⟨_, he1⟩
    · exact Or.inr ⟨n, he1⟩
  have hc1 : List.count (Effect.runDownloader url)
      (cleanupEffects (askMain w url topic) w) = 0 := by
    rw [List.count_eq_zero]
    intro hmem
    rcases hclean _ hmem with ⟨p, hp⟩ | ⟨n, hn⟩ <;> simp_all
  have hc2 : ∀ p, List.count (Effect.uploadFile p)
      (cleanupEffects (askMain w url topic) w) = 0 := by
    intro p
    rw [List.count_eq_zero]
    intro hmem
    rcases hclean _ hmem with ⟨q, hq⟩ | ⟨n, hn⟩ <;> simp_all
  have hc3 : List.count Effect.generateContent
      (cleanupEffects (askMain w url topic) w) = 0 := by
    rw [List.count_eq_zero]
    intro hmem
    rcases hclean _ hmem with ⟨q, hq⟩ | ⟨n, hn⟩ <;> simp_all
  refine ⟨?_, ?_, ?_, ?_, ?_, ?_, ?_, ?_, ?_, ?_⟩
  · intro msg h0
    rw [ask_fst, askMain_dlRaises h0]
  · intro h0 h1
    rw [ask_fst, askMain_badExit h0 h1]
  · intro h0 h1 h2
    rw [ask_fst, askMain_noFile h0 h1 h2]
  · intro msg h0 h1 h2 h3
    rw [ask_fst, askMain_uploadErr h0 h1 h2 h3]
  · intro name h0 h1 h2 h3 h4
    rw [ask_fst, @askMain_pollTimeout w url topic name h0 h1 h2 h3 h4]
  · intro name msg h0 h1 h2 h3 h4 h5
    rw [ask_fst, @askMain_oracleErr w url topic name msg h0 h1 h2 h3 h4 h5]
  · intro d1 d2 he
    cases he
  · rw [ask_snd, List.count_append, hc1]
    rcases (askMain_shape w url topic).1 with hs | hs | hs <;> rw [hs] <;> simp
  · intro p
    rw [ask_snd, List.count_append, hc2]
    have : List.count (Effect.uploadFile p) (askMain w url topic).effects ≤ 1 := by
      rcases (askMain_shape w url topic).1 with hs | hs | hs <;> rw [hs] <;>
        simp [List.count_cons, List.count_singleton'] <;> split <;> simp
    omega
  · rw [ask_snd, List.count_append, hc3]
    have : List.count Effect.generateContent (askMain w url topic).effects ≤ 1 := by
      rcases (askMain_shape w url topic).1 with hs | hs | hs <;> rw [hs] <;> simp
    omega

/-- C10 (implicit): the per-request temp directory is never removed — the
trace contains only the downloader, upload and query calls plus at most
one file removal, which targets exactly the currently recorded audio path
(never the directory), and when the original path's file does not exist
(extension drift) no removal of the original path ever happens. -/
theorem C10_tmpdir_survives :
    ∀ (w : World) (url topic : String),
      (∀ p, Effect.removeFile p ∈ (ask w url topic).2 →
        p = (askMain w url topic).tmpAudio) ∧
      List.count (Effect.removeFile (askMain w url topic).tmpAudio)
        (ask w url topic).2 ≤ 1 ∧
      (∀ p, Effect.removeFile p ∈ (ask w url topic).2 → p ≠ tmpDir) ∧
      (w.fExists origAudio = false →
        Effect.removeFile origAudio ∉ (ask w url topic).2) ∧
      (∀ e ∈ (ask w url topic).2,
        e = Effect.runDownloader url ∨ (∃ p, e = Effect.uploadFile p) ∨
          e = Effect.generateContent ∨
          (e = Effect.removeFile (askMain w url topic).tmpAudio ∧
            w.fExists (askMain w url topic).tmpAudio = true) ∨
          (∃ n, e = Effect.deleteRemote n)) := by
  intro w url topic
  have hrem : ∀ p, Effect.removeFile p ∈ (ask w url topic).2 →
      p = (askMain w url topic).tmpAudio ∧
        w.fExists (askMain w url topic).tmpAudio = true := by
    intro p hmem
    rw [ask_snd] at hmem
    rcases List.mem_append.mp hmem with hin | hin
    · rcases askMain_effects_mem w url topic _ hin with h | h | h <;> cases h
    · rcases cleanup_mem hin with ⟨he, hex⟩ | ⟨n, _, he⟩
      · cases he
        exact ⟨rfl, hex⟩
      · cases he
  refine ⟨fun p hp => (hrem p hp).1, ?_, ?_, ?_, ?_⟩
  · rw [ask_snd, List.count_append, main_count_zero_remove]
    have := cleanup_count_remove_le (askMain w url topic) w
      (askMain w url topic).tmpAudio
    omega
  · intro p hp
    rw [(hrem p hp).1]
    exact tmpAudio_ne_tmpDir w url topic
  · intro hex hmem
    obtain ⟨hp, hext⟩ := hrem _ hmem
    rw [← hp] at hext
    rw [hext] at hex
    cases hex
  · intro e he
    rw [ask_snd] at he
    rcases List.mem_append.mp he with hin | hin
    · rcases askMain_effects_mem w url topic _ hin with h | h | h
      · exact Or.inl h
      · exact Or.inr (Or.inl ⟨_, h⟩)
      · exact Or.inr (Or.inr (Or.inl h))
    · rcases cleanup_mem hin with ⟨he1, hex⟩ | ⟨n, _, he1⟩
      · exact Or.inr (Or.inr (Or.inr (Or.inl ⟨he1, hex⟩)))
      · exact Or.inr (Or.inr (Or.inr (Or.inr ⟨n, he1⟩)))
